import Mathlib

/-!
Verification of the MonitoringBot telemetry relay (src/server.py, src/client.py)
against its natural-language specification.  The server's JSON registry, the
SQLite metric store, the 30-second bucketing aggregator, the gap detector and
the client's certificate-pinning transport are shallowly embedded as pure Lean
functions; timestamps are integers (seconds), floating-point readings are
rationals, Python dicts are association lists, and randomness (secret
generation) is an explicit input.
-/

/-- Telemetry payload accepted by `POST /api/push` (server.py `MetricsPayload`).
Required float fields are rationals; optional fields are `Option`. -/
structure MetricsPayload where
  cpu : ℚ
  ram : ℚ
  ram_used : ℚ
  ram_total : ℚ
  swap : ℚ
  swap_used : ℚ
  swap_total : ℚ
  uptime : ℚ
  cpu_temp : Option ℚ
  gpu : Option ℚ
  vram : Option ℚ
  vram_used : Option ℚ
  vram_total : Option ℚ
  gpu_temp : Option ℚ
deriving DecidableEq

/-- Status text stored in a registry entry.  The spec treats rendering of
telemetry into display text as an external collaborator (server.py
`build_status` is pure string formatting), so a rendered status is modelled
by the payload it was rendered from, and a raw text status (endpoint
`/api/msg`) by the text itself.  No claim inspects the rendered characters,
only which status value is stored and when it is replaced. -/
inductive StatusVal
  | rendered (p : MetricsPayload)
  | text (s : String)
deriving DecidableEq

/-- One registry entry of the JSON store `db["secrets"][secret]`
(server.py `cmd_newkey` builds it with exactly these four fields). -/
structure Entry where
  owners : List ℤ
  nickname : String
  status : Option StatusVal
  pending : List String
deriving DecidableEq

/-- The JSON document `db.json` (server.py `load_db`): the `secrets` map and
the `active` chat-to-secret map, modelled as insertion-ordered association
lists (Python dicts preserve insertion order and have unique keys). -/
structure Db where
  secrets : List (String × Entry)
  active : List (String × String)
deriving DecidableEq

/-- Python dict lookup `d.get(k)` on an association list. -/
def lookupSec {α : Type} : List (String × α) → String → Option α
  | [], _ => none
  | (k, v) :: rest, s => if k = s then some v else lookupSec rest s

/-- Python dict assignment `d[k] = v`: replace in place when the key exists,
append otherwise. -/
def dictSet {α : Type} (l : List (String × α)) (k : String) (v : α) : List (String × α) :=
  if l.any (fun kv => kv.1 = k) then
    l.map (fun kv => (kv.1, if kv.1 = k then v else kv.2))
  else l ++ [(k, v)]

/-- In-place mutation of the entry stored under an existing key (Python code
obtains `entry = d[k]` by reference and mutates its fields). -/
def dictModify {α : Type} (l : List (String × α)) (k : String) (f : α → α) :
    List (String × α) :=
  l.map (fun kv => (kv.1, if kv.1 = k then f kv.2 else kv.2))

/-- The 62-character alphabet `string.ascii_letters + string.digits` used by
server.py `gen_secret`. -/
def ascii_letters_digits : List Char :=
  "abcdefghijklmnopqrstuvwxyzABCDEFGHIJKLMNOPQRSTUVWXYZ0123456789".toList

/-- server.py `gen_secret` (line 291): 20 independent draws from the
62-character alphanumeric alphabet.  The randomness is externalised as the
`pick` argument. -/
def gen_secret (pick : Fin 20 → Fin 62) : String :=
  String.mk ((List.finRange 20).map (fun i => ascii_letters_digits.getD ((pick i) : ℕ) 'a'))

/-- server.py `cmd_newkey` (lines 322–336): build the nickname from the
arguments (default "PC", truncated to 30 characters), store a brand-new entry
under the generated secret — an unconditional dict assignment, no collision
check — and make the secret active for the chat. -/
def cmd_newkey (db : Db) (uid : ℤ) (chat : String) (args : List String) (secret : String) : Db :=
  let name := if args.isEmpty then "PC" else (String.intercalate " " args).take 30
  Db.mk (dictSet db.secrets secret (Entry.mk [uid] name none []))
        (dictSet db.active chat secret)

/-- server.py `cmd_linkkey` (lines 338–351): reply text and resulting store.
Unknown key and missing argument leave the store untouched; an existing owner
is a no-op; otherwise the caller is appended to `owners` and the key becomes
active for the chat. -/
def cmd_linkkey (db : Db) (uid : ℤ) (chat : String) (args : List String) : String × Db :=
  match args with
  | [] => ("Синтаксис: /linkkey <key>", db)
  | secret :: _ =>
    match lookupSec db.secrets secret with
    | none => ("🚫 Ключ не найден.", db)
    | some e =>
      if uid ∈ e.owners then ("✔️ Уже есть доступ.", db)
      else
        ("✅ Ключ добавлен и сделан активным.",
         Db.mk (dictModify db.secrets secret (fun e2 => Entry.mk (e2.owners ++ [uid]) e2.nickname e2.status e2.pending))
               (dictSet db.active chat secret))

/-- server.py `cmd_renamekey` (lines 433–443): reply text and resulting store.
The single guard `if not entry or not is_owner(...)` replies with the same
"🚫 Нет доступа." both when the secret does not exist and when the caller is
not an owner. -/
def cmd_renamekey (db : Db) (uid : ℤ) (args : List String) : String × Db :=
  if args.length < 2 then ("Синтаксис: /renamekey <key> <new_name>", db)
  else
    let secret := args.headD ""
    let new_name := (String.intercalate " " args.tail).take 30
    match lookupSec db.secrets secret with
    | none => ("🚫 Нет доступа.", db)
    | some e =>
      if uid ∈ e.owners then
        ("✅ `" ++ secret ++ "` → " ++ new_name,
         Db.mk (dictModify db.secrets secret (fun e2 => Entry.mk e2.owners new_name e2.status e2.pending)) db.active)
      else ("🚫 Нет доступа.", db)

/-- server.py `cb_action`, the `reboot`/`shutdown`/`speedtest` branches
(lines 611–618, 683–691): an owner's button press appends the command token to
the entry's `pending` queue; a missing entry or a non-owner changes nothing. -/
def cb_enqueue (db : Db) (uid : ℤ) (secret : String) (action : String) : String × Db :=
  match lookupSec db.secrets secret with
  | none => ("🚫 Нет доступа.", db)
  | some e =>
    if uid ∈ e.owners then
      ("☑️ " ++ action ++ " поставлена в очередь.",
       Db.mk (dictModify db.secrets secret (fun e2 => Entry.mk e2.owners e2.nickname e2.status (e2.pending ++ [action]))) db.active)
    else ("🚫 Нет доступа.", db)

/-- One row of the SQLite `metrics` table (server.py `_init_metric_db`). -/
structure MetricRow where
  secret : String
  ts : ℤ
  cpu : ℚ
  ram : ℚ
  gpu : Option ℚ
  vram : Option ℚ
  cpu_temp : Option ℚ
  uptime : Option ℚ
deriving DecidableEq

/-- server.py `record_metric` (lines 227–234): append one sample row, with the
server-assigned wall-clock timestamp `now`. -/
def record_metric (store : List MetricRow) (secret : String) (now : ℤ) (cpu ram : ℚ)
    (gpu vram cpu_temp uptime : Option ℚ) : List MetricRow :=
  store ++ [MetricRow.mk secret now cpu ram gpu vram cpu_temp uptime]

/-- Result of the `POST /api/push` and `POST /api/msg` endpoints. -/
inductive PushResult
  | ok
  | notFound
deriving DecidableEq

/-- Result of the `GET /api/pull` endpoint. -/
inductive PullResult
  | commands (cmds : List String)
  | notFound
deriving DecidableEq

/-- server.py endpoint `push` (lines 782–800): HTTP 404 for an unknown secret,
otherwise append a metric row and replace the entry's status with the freshly
rendered payload. -/
def push (db : Db) (store : List MetricRow) (now : ℤ) (secret : String)
    (payload : MetricsPayload) : PushResult × Db × List MetricRow :=
  match lookupSec db.secrets secret with
  | none => (PushResult.notFound, db, store)
  | some _ =>
    let store2 := record_metric store secret now payload.cpu payload.ram payload.gpu
        payload.vram payload.cpu_temp (some payload.uptime)
    (PushResult.ok,
     Db.mk (dictModify db.secrets secret (fun e => Entry.mk e.owners e.nickname (some (StatusVal.rendered payload)) e.pending)) db.active,
     store2)

/-- server.py endpoint `push_text` (lines 802–809): HTTP 404 for an unknown
secret, otherwise overwrite the entry's status with the raw text. -/
def push_text (db : Db) (secret : String) (txt : String) : PushResult × Db :=
  match lookupSec db.secrets secret with
  | none => (PushResult.notFound, db)
  | some _ =>
    (PushResult.ok,
     Db.mk (dictModify db.secrets secret (fun e => Entry.mk e.owners e.nickname (some (StatusVal.text txt)) e.pending)) db.active)

/-- server.py endpoint `pull` (lines 811–819): HTTP 404 for an unknown secret,
otherwise read the whole `pending` list and reset it to `[]` in the same
request. -/
def pull (db : Db) (secret : String) : PullResult × Db :=
  match lookupSec db.secrets secret with
  | none => (PullResult.notFound, db)
  | some e =>
    (PullResult.commands e.pending,
     Db.mk (dictModify db.secrets secret (fun e2 => Entry.mk e2.owners e2.nickname e2.status [])) db.active)

/-- client.py `_request` (lines 302–327), fingerprint logic.  The TLS socket
and the HTTP exchange are outside the embedding: the function takes the stored
(pinned) fingerprint and the SHA-256 digest of the live peer certificate, and
returns the outcome — the raised error, if any — together with the trust-store
contents afterwards.  No pin: the digest is saved (trust on first use).  Pin
equal: proceed.  Pin different: raise the RuntimeError. -/
def _request (pinned : Option String) (current_fp : String) : Except String Unit × Option String :=
  match pinned with
  | none => (Except.ok (), some current_fp)
  | some p =>
    if p ≠ current_fp then
      (Except.error ("TLS fingerprint mismatch! old=" ++ p ++ " new=" ++ current_fp), some p)
    else (Except.ok (), some p)

/-- client.py `push_metrics` (lines 329–334): call `_request`, then
`raise_for_status`; every exception — the fingerprint-mismatch RuntimeError
included — is caught by the blanket `except Exception` and only logged.
Returns (logged error message if one was caught, trust store afterwards);
the function itself never propagates an error. -/
def push_metrics (pinned : Option String) (current_fp : String) (resp_ok : Bool) :
    Option String × Option String :=
  match _request pinned current_fp with
  | (Except.error e, st) => (some ("push error: " ++ e), st)
  | (Except.ok _, st) =>
    if resp_ok then (none, st) else (some "push error: HTTPError", st)

/-- Python `statistics.median`: sort, take the middle element (odd length) or
the mean of the two middle elements (even length).  The empty case (a Python
exception) is mapped to 0; `_find_gaps` never reaches it on an empty list. -/
def pyMedian (l : List ℚ) : ℚ :=
  let s := List.insertionSort (· ≤ ·) l
  let n := l.length
  if n = 0 then 0
  else if n % 2 = 1 then s.getD (n / 2) 0
  else (s.getD (n / 2 - 1) 0 + s.getD (n / 2) 0) / 2

/-- Python `max` on a list of rationals (0 for the empty list, which the
caller guards against). -/
def maxList (l : List ℚ) : ℚ :=
  match l with
  | [] => 0
  | h :: t => t.foldl max h

/-- The scanning loop of server.py `_find_gaps` (lines 469–474): walk the
remaining timestamps with `prev` the previous timestamp, `i` the index of the
next element and `start` the first index of the current segment; a consecutive
difference exceeding `thr` closes the segment and records the gap. -/
def walk (thr : ℚ) (prev : ℚ) (i start : ℕ) (rest : List ℚ) :
    List (ℤ × ℤ) × List (ℚ × ℚ) :=
  match rest with
  | [] => ([((start : ℤ), (i : ℤ) - 1)], [])
  | t :: more =>
    if t - prev > thr then
      let r := walk thr t (i + 1) i more
      (((start : ℤ), (i : ℤ) - 1) :: r.1, (prev, t) :: r.2)
    else walk thr t (i + 1) start more

/-- server.py `_find_gaps` (lines 457–475).  Timestamps are rational seconds
(the Python code subtracts datetimes and takes `total_seconds()`).  Fewer than
two samples: one degenerate segment, no gaps, threshold 0.  Otherwise the
threshold is `median(intervals) * factor`, with the median replaced by
`max(intervals)` when it is not positive (the literal 60-second alternative is
kept exactly as written, guarded by `intervals` being empty). -/
def find_gaps (ts : List ℚ) (factor : ℚ) : List (ℤ × ℤ) × List (ℚ × ℚ) × ℚ :=
  match ts with
  | [] => ([(0, -1)], [], 0)
  | [_] => ([(0, 0)], [], 0)
  | t0 :: t1 :: rest =>
    let full := t0 :: t1 :: rest
    let intervals := List.zipWith (fun a b => a - b) full.tail full
    let med0 := if intervals.isEmpty then 0 else pyMedian intervals
    let med := if med0 ≤ 0 then (if intervals.isEmpty then 60 else maxList intervals) else med0
    let thr := med * factor
    let r := walk thr t0 1 0 (t1 :: rest)
    (r.1, r.2, thr)

/-- One aggregated row as produced by server.py `fetch_metrics`/`group_30s`:
(ts, cpu, ram, gpu, vram), the optional columns nullable. -/
structure Row where
  ts : ℤ
  cpu : ℚ
  ram : ℚ
  gpu : Option ℚ
  vram : Option ℚ
deriving DecidableEq

/-- The bucket key `ts - (ts % 30)` of server.py `group_30s` (line 247). -/
def bucketKey (t : ℤ) : ℤ := t - t % 30

/-- The per-bucket aggregation of server.py `group_30s` (lines 251–265):
`cpu` and `ram` are summed over the bucket and divided by the bucket size `n`;
`gpu` and `vram` sum only the non-null values but still divide by `n`, and
become null when no sample in the bucket carries the field. -/
def aggBucket (k : ℤ) (vals : List Row) : Row :=
  let n : ℚ := (vals.length : ℚ)
  Row.mk k
    ((vals.map Row.cpu).sum / n)
    ((vals.map Row.ram).sum / n)
    (if (vals.map Row.gpu).any Option.isSome then
       some (((vals.map Row.gpu).filterMap id).sum / n) else none)
    (if (vals.map Row.vram).any Option.isSome then
       some (((vals.map Row.vram).filterMap id).sum / n) else none)

/-- The distinct bucket keys of a row list in ascending order — the iteration
order `for ts in sorted(buckets)` of server.py `group_30s` (the dict keys are
the distinct values of `r[0] - (r[0] % 30)`). -/
def bucketKeys (rows : List Row) : List ℤ :=
  List.insertionSort (· ≤ ·) ((rows.map (fun r => bucketKey r.ts)).dedup)

/-- The rows landing in the bucket keyed `k` — `buckets[k]` of server.py
`group_30s` (`setdefault` keeps the rows of one bucket in input order, which
`filter` reproduces). -/
def bucketOf (rows : List Row) (k : ℤ) : List Row :=
  rows.filter (fun r => bucketKey r.ts = k)

/-- server.py `group_30s` (lines 244–266): partition the rows by bucket key,
then aggregate the buckets in ascending key order. -/
def group_30s (rows : List Row) : List Row :=
  (bucketKeys rows).map (fun k => aggBucket k (bucketOf rows k))

/-- Formalisation of the spec sentence "averaging each numeric field across
samples in the bucket" for an optional field, read as the mean over exactly
the samples that carry the field; written from the spec's words, only to be
compared with `aggBucket`. -/
def specFieldMean (vals : List (Option ℚ)) : Option ℚ :=
  let present := vals.filterMap id
  if present.isEmpty then none else some (present.sum / (present.length : ℚ))

/-- A registry-mutating operation of the kind quantified over by the ownership
invariant: key creation (with its externalised random secret) or key linking. -/
inductive RegOp
  | create (uid : ℤ) (chat : String) (args : List String) (secret : String)
  | link (uid : ℤ) (chat : String) (args : List String)

/-- Apply one registry operation to the store. -/
def applyOp (db : Db) : RegOp → Db
  | RegOp.create uid chat args secret => cmd_newkey db uid chat args secret
  | RegOp.link uid chat args => (cmd_linkkey db uid chat args).2

/-- Run a sequence of registry operations. -/
def runOps (db : Db) (ops : List RegOp) : Db := ops.foldl applyOp db

/-- `freshRun db ops = true` when every `create` in the sequence draws a secret
that is not yet a key of the registry at the moment it executes (the
astronomically probable behaviour of `gen_secret`). -/
def opFresh (db : Db) : RegOp → Bool
  | RegOp.create _ _ _ s => (lookupSec db.secrets s).isNone
  | RegOp.link _ _ _ => true

def freshRun (db : Db) : List RegOp → Bool
  | [] => true
  | op :: rest => opFresh db op && freshRun (applyOp db op) rest

/-- Observer: the registry has an entry under this secret. -/
def hasEntry (db : Db) (s : String) : Bool := (lookupSec db.secrets s).isSome

/-- Observer: this user is an owner of the entry stored under this secret. -/
def ownsKey (db : Db) (s : String) (uid : ℤ) : Bool :=
  match lookupSec db.secrets s with
  | none => false
  | some e => decide (uid ∈ e.owners)

/-- Observer: every registry entry has a non-empty owner list. -/
def ownersAllNonempty (db : Db) : Bool :=
  db.secrets.all (fun kv => !kv.2.owners.isEmpty)

/-- Concrete registry entry with one queued command, for witnesses. -/
def exEntry : Entry := Entry.mk [1] "PC" none ["reboot"]

/-- Concrete one-entry registry, for witnesses. -/
def exDb : Db := Db.mk [("S", exEntry)] []

/-- Concrete telemetry payload, for witnesses. -/
def exPayload : MetricsPayload :=
  MetricsPayload.mk (123 / 10) 45 100 200 0 0 0 1000 none none none none none none

/-- A concrete draw of `gen_secret`'s randomness (all picks hit letter `a`). -/
def pick0 : Fin 20 → Fin 62 := fun _ => Fin.mk 0 (by omega)

/-- Registry already holding an entry under the secret that `gen_secret pick0`
will produce — the collision scenario. -/
def exDb6 : Db := Db.mk [(gen_secret pick0, Entry.mk [99] "old" none ["reboot"])] []

/-- Registry whose single entry `"k"` is owned by user 1 only. -/
def exDb7 : Db := Db.mk [("k", Entry.mk [1] "PC" none [])] []

/-- Registry whose single entry `"A"` is owned by user 1 only. -/
def exDb8 : Db := Db.mk [("A", Entry.mk [1] "PC" none [])] []

/-- Two `create` calls whose random draws collide on the same secret. -/
def opsC8 : List RegOp :=
  [RegOp.create 1 "c" [] (gen_secret pick0), RegOp.create 2 "c" [] (gen_secret pick0)]

/-- Two samples in the same 30-second bucket, only the first carrying a GPU
reading. -/
def rowsC9 : List Row := [Row.mk 0 10 10 (some 50) none, Row.mk 1 20 20 none none]

/-! ## Association-list lemmas (Python dict semantics) -/

theorem lookupSec_dictModify_self {α : Type} (l : List (String × α)) (k : String) (f : α → α) :
    lookupSec (dictModify l k f) k = (lookupSec l k).map f := by
  induction l with
  | nil => rfl
  | cons kv rest ih =>
    obtain ⟨k0, v0⟩ := kv
    by_cases h : k0 = k
    · subst h
      simp [dictModify, lookupSec]
    · simp only [dictModify, List.map_cons, lookupSec, if_neg h] at ih ⊢
      exact ih

theorem lookupSec_dictModify_ne {α : Type} (l : List (String × α)) (k s : String) (f : α → α)
    (hne : s ≠ k) : lookupSec (dictModify l k f) s = lookupSec l s := by
  induction l with
  | nil => rfl
  | cons kv rest ih =>
    obtain ⟨k0, v0⟩ := kv
    by_cases h : k0 = s
    · subst h
      simp [dictModify, lookupSec, hne]
    · simp only [dictModify, List.map_cons, lookupSec, if_neg h] at ih ⊢
      exact ih

theorem lookupSec_eq_none_of_any_false {α : Type} (l : List (String × α)) (s : String)
    (h : l.any (fun kv => kv.1 = s) = false) : lookupSec l s = none := by
  induction l with
  | nil => rfl
  | cons kv rest ih =>
    obtain ⟨k0, v0⟩ := kv
    simp only [List.any_cons, Bool.or_eq_false_iff, decide_eq_false_iff_not] at h
    simp only [lookupSec, if_neg h.1, ih h.2]

theorem lookupSec_append_of_some {α : Type} (l m : List (String × α)) (s : String) (v : α)
    (h : lookupSec l s = some v) : lookupSec (l ++ m) s = some v := by
  induction l with
  | nil => simp [lookupSec] at h
  | cons kv rest ih =>
    obtain ⟨k0, v0⟩ := kv
    by_cases h1 : k0 = s
    · simp only [lookupSec, if_pos h1] at h
      simp only [List.cons_append, lookupSec, if_pos h1, h]
    · simp only [lookupSec, if_neg h1] at h
      simp only [List.cons_append, lookupSec, if_neg h1]
      exact ih h

theorem lookupSec_append_of_none {α : Type} (l m : List (String × α)) (s : String)
    (h : lookupSec l s = none) : lookupSec (l ++ m) s = lookupSec m s := by
  induction l with
  | nil => rfl
  | cons kv rest ih =>
    obtain ⟨k0, v0⟩ := kv
    by_cases h1 : k0 = s
    · simp [lookupSec, if_pos h1] at h
    · simp only [lookupSec, if_neg h1] at h
      simp only [List.cons_append, lookupSec, if_neg h1]
      exact ih h

theorem lookupSec_isSome_of_any {α : Type} (l : List (String × α)) (k : String)
    (h : l.any (fun kv => kv.1 = k) = true) : (lookupSec l k).isSome = true := by
  induction l with
  | nil => simp at h
  | cons kv rest ih =>
    obtain ⟨k0, v0⟩ := kv
    by_cases h1 : k0 = k
    · simp [lookupSec, if_pos h1]
    · simp only [List.any_cons, decide_eq_true_eq, h1, false_or] at h
      simp only [lookupSec, if_neg h1]
      exact ih h

theorem lookupSec_map_set {α : Type} (l : List (String × α)) (k : String) (v : α)
    (hsome : (lookupSec l k).isSome = true) :
    lookupSec (l.map (fun kv => (kv.1, if kv.1 = k then v else kv.2))) k = some v := by
  induction l with
  | nil => simp [lookupSec] at hsome
  | cons kv rest ih =>
    obtain ⟨k0, v0⟩ := kv
    by_cases h : k0 = k
    · subst h
      simp [lookupSec]
    · simp only [lookupSec, if_neg h] at hsome
      simp only [List.map_cons, lookupSec, if_neg h]
      exact ih hsome

theorem lookupSec_map_set_ne {α : Type} (l : List (String × α)) (k s : String) (v : α)
    (hne : s ≠ k) :
    lookupSec (l.map (fun kv => (kv.1, if kv.1 = k then v else kv.2))) s = lookupSec l s := by
  induction l with
  | nil => rfl
  | cons kv rest ih =>
    obtain ⟨k0, v0⟩ := kv
    by_cases h : k0 = s
    · subst h
      simp [lookupSec, hne]
    · simp only [List.map_cons, lookupSec, if_neg h]
      exact ih

theorem lookupSec_dictSet_self {α : Type} (l : List (String × α)) (k : String) (v : α) :
    lookupSec (dictSet l k v) k = some v := by
  unfold dictSet
  by_cases hany : l.any (fun kv => kv.1 = k) = true
  · rw [if_pos hany]
    exact lookupSec_map_set l k v (lookupSec_isSome_of_any l k hany)
  · rw [if_neg hany]
    have hfalse : l.any (fun kv => kv.1 = k) = false := by
      revert hany; cases l.any (fun kv => kv.1 = k) <;> simp
    rw [lookupSec_append_of_none l _ k (lookupSec_eq_none_of_any_false l k hfalse)]
    simp [lookupSec]

theorem lookupSec_dictSet_ne {α : Type} (l : List (String × α)) (k s : String) (v : α)
    (hne : s ≠ k) : lookupSec (dictSet l k v) s = lookupSec l s := by
  unfold dictSet
  by_cases hany : l.any (fun kv => kv.1 = k) = true
  · rw [if_pos hany]
    exact lookupSec_map_set_ne l k s v hne
  · rw [if_neg hany]
    cases hl : lookupSec l s with
    | some w => rw [lookupSec_append_of_some l _ s w hl]
    | none =>
      rw [lookupSec_append_of_none l _ s hl]
      have h2 : ¬(k = s) := fun hc => hne hc.symm
      simp [lookupSec, h2]

/-! ## Claim theorems -/

/-- Claim C1 (code_bug evidence): at a pinned fingerprint "aa" and a live
certificate fingerprint "bb", `_request` does raise the fatal trust error, but
`push_metrics` catches it with its blanket `except Exception` and merely logs
it — the mismatch does not abort the push/pull cycle, contrary to the claim
and the spec's stated failure semantics. -/
theorem trust_mismatch_caught :
    (_request (some "aa") "bb").1 =
      Except.error "TLS fingerprint mismatch! old=aa new=bb" ∧
    push_metrics (some "aa") "bb" true =
      (some "push error: TLS fingerprint mismatch! old=aa new=bb", some "aa") := by
  constructor <;> rfl

/-- Claim C2: for every registry entry, `pull` returns the entire pending
command list (in stored enqueue order), resets the stored list to empty, and
an immediately following `pull` on the same secret returns the empty list. -/
theorem pull_drains (db : Db) (secret : String) (e : Entry)
    (h : lookupSec db.secrets secret = some e) :
    (pull db secret).1 = PullResult.commands e.pending ∧
    lookupSec (pull db secret).2.secrets secret =
      some (Entry.mk e.owners e.nickname e.status []) ∧
    (pull (pull db secret).2 secret).1 = PullResult.commands [] := by
  have h2 : lookupSec
      (dictModify db.secrets secret (fun e2 => Entry.mk e2.owners e2.nickname e2.status []))
      secret = some (Entry.mk e.owners e.nickname e.status []) := by
    rw [lookupSec_dictModify_self, h]
    rfl
  refine ⟨by simp [pull, h], by simp [pull, h, h2], by simp [pull, h, h2]⟩

/-- Witness for C2 on a concrete one-entry registry with one queued command. -/
theorem pull_drains_witness :
    (pull exDb "S").1 = PullResult.commands ["reboot"] ∧
    (pull (pull exDb "S").2 "S").1 = PullResult.commands [] := by
  have h := pull_drains exDb "S" exEntry (by decide)
  exact ⟨h.1, h.2.2⟩

/-- Claim C3: `push` and `pull` against a secret absent from the registry both
return the not-found result and leave the registry, the active bindings and
the time-series store exactly as they were. -/
theorem unknown_secret_isolation (db : Db) (store : List MetricRow) (now : ℤ)
    (secret : String) (payload : MetricsPayload)
    (h : lookupSec db.secrets secret = none) :
    push db store now secret payload = (PushResult.notFound, db, store) ∧
    pull db secret = (PullResult.notFound, db) := by
  constructor
  · simp [push, h]
  · simp [pull, h]

/-- Witness for C3: the secret "T" was never created in `exDb`. -/
theorem unknown_secret_isolation_witness :
    push exDb [] 1000 "T" exPayload = (PushResult.notFound, exDb, []) ∧
    pull exDb "T" = (PullResult.notFound, exDb) :=
  unknown_secret_isolation exDb [] 1000 "T" exPayload (by decide)

/-- Claim C4: on timestamps [0, 30, 60, 600, 630] with factor 2, the median
consecutive interval is 30 s, the threshold 60 s, and `_find_gaps` reports
exactly one gap — between index 2 (t = 60) and index 3 (t = 600) — and the two
segments [0..60] (indices 0–2) and [600..630] (indices 3–4). -/
theorem gap_classification :
    find_gaps [0, 30, 60, 600, 630] 2 = ([(0, 2), (3, 4)], [(60, 600)], 60) ∧
    pyMedian (List.zipWith (fun a b => a - b) [30, 60, 600, 630] [0, 30, 60, 600, 630]) = 30 := by
  constructor <;>
    norm_num [find_gaps, pyMedian, maxList, walk, List.insertionSort, List.orderedInsert]

/-- Counterexample for C5: with a single sample the function returns early
with threshold 0 — not the 60-second fallback the claim describes (a 60 s
median with factor 2 would give threshold 120). -/
theorem gap_threshold_no60_cex :
    find_gaps [5] 2 = ([(0, 0)], [], 0) ∧ (0 : ℚ) ≠ 60 * 2 := by
  constructor
  · rfl
  · norm_num

/-- Claim C5 as amended: with at least two samples, a non-positive median
falls back to the maximum observed interval; with fewer than two samples the
function returns early — one degenerate segment, no gaps and threshold 0, so
the literal 60-second fallback in the code is unreachable. -/
theorem gap_threshold_fallback (ts : List ℚ) (factor : ℚ) :
    (ts.length < 2 → find_gaps ts factor = ([(0, (ts.length : ℤ) - 1)], [], 0)) ∧
    (2 ≤ ts.length →
      pyMedian (List.zipWith (fun a b => a - b) ts.tail ts) ≤ 0 →
      (find_gaps ts factor).2.2 =
        maxList (List.zipWith (fun a b => a - b) ts.tail ts) * factor) := by
  cases ts with
  | nil =>
    exact ⟨fun _ => by norm_num [find_gaps], fun h2 => absurd h2 (by simp)⟩
  | cons t0 rest =>
    cases rest with
    | nil =>
      exact ⟨fun _ => by norm_num [find_gaps], fun h2 => absurd h2 (by simp)⟩
    | cons t1 rest2 =>
      refine ⟨fun h => absurd h (by simp), fun _ hmed => ?_⟩
      simp only [List.tail_cons] at hmed ⊢
      simp only [find_gaps, List.tail_cons, List.zipWith_cons_cons, List.isEmpty_cons,
        Bool.false_eq_true, if_false] at hmed ⊢
      rw [if_pos hmed]

/-- Witness for C5 on two equal timestamps: the median interval is 0, so the
threshold falls back to the maximum interval (also 0) times the factor. -/
theorem gap_threshold_fallback_witness :
    2 ≤ ([0, 0] : List ℚ).length ∧
    (find_gaps [0, 0] 2).2.2 =
      maxList (List.zipWith (fun a b => a - b) ([0, 0] : List ℚ).tail [0, 0]) * 2 :=
  ⟨by norm_num,
   (gap_threshold_fallback [0, 0] 2).2 (by norm_num)
     (by norm_num [pyMedian, List.insertionSort, List.orderedInsert])⟩

/-- Counterexample for C6: when the freshly generated secret collides with an
existing registry key, `cmd_newkey` overwrites the old entry (its owners and
queued commands are lost) instead of regenerating. -/
theorem newkey_overwrites_on_collision_cex :
    lookupSec exDb6.secrets (gen_secret pick0) =
      some (Entry.mk [99] "old" none ["reboot"]) ∧
    lookupSec (cmd_newkey exDb6 1 "chat" [] (gen_secret pick0)).secrets (gen_secret pick0) =
      some (Entry.mk [1] "PC" none []) ∧
    Entry.mk [99] "old" none ["reboot"] ≠ Entry.mk [1] "PC" none [] := by
  refine ⟨by decide, by decide, by decide⟩

/-- Claim C6 as amended: the generated secret always has exactly 20
alphanumeric characters, and `create` stores an entry with
owners = [creator], status = null, pending = [] under it (and makes it the
chat's active key) — but by unconditional assignment, with no collision check:
a colliding secret overwrites the existing entry rather than being
regenerated. -/
theorem newkey_creates_entry (db : Db) (uid : ℤ) (chat : String) (args : List String)
    (pick : Fin 20 → Fin 62) :
    (gen_secret pick).length = 20 ∧
    (∀ c ∈ (gen_secret pick).data, c.isAlphanum = true) ∧
    lookupSec (cmd_newkey db uid chat args (gen_secret pick)).secrets (gen_secret pick) =
      some (Entry.mk [uid]
        (if args.isEmpty then "PC" else (String.intercalate " " args).take 30) none []) ∧
    lookupSec (cmd_newkey db uid chat args (gen_secret pick)).active chat =
      some (gen_secret pick) := by
  have halpha : ∀ j : Fin 62, (ascii_letters_digits.getD (j : ℕ) 'a').isAlphanum = true := by
    decide
  refine ⟨?_, ?_, ?_, ?_⟩
  · simp [gen_secret, String.length]
  · intro c hc
    have hc2 : c ∈ (List.finRange 20).map
        (fun i => ascii_letters_digits.getD ((pick i) : ℕ) 'a') := hc
    obtain ⟨i, _, rfl⟩ := List.mem_map.mp hc2
    exact halpha (pick i)
  · exact lookupSec_dictSet_self db.secrets (gen_secret pick) _
  · exact lookupSec_dictSet_self db.active chat _

/-- Counterexample for C7: a rename attempted by non-owner 2 on the existing
secret "k" (owned by 1 alone) yields exactly the same "no access" reply as a
rename of a secret that does not exist at all — the two outcomes are not
distinguishable. -/
theorem rename_indistinct_cex :
    (cmd_renamekey exDb7 2 ["k", "x"]).1 = (cmd_renamekey (Db.mk [] []) 2 ["k", "x"]).1 ∧
    lookupSec exDb7.secrets "k" = some (Entry.mk [1] "PC" none []) ∧
    ((2 : ℤ) ∈ [(1 : ℤ)] → False) ∧
    lookupSec (Db.mk [] []).secrets "k" = none := by
  refine ⟨by decide, by decide, by decide, by decide⟩

/-- Claim C7 as amended: a registry mutation by a non-owner is refused with
the same "🚫 Нет доступа." outcome (and untouched store) that a nonexistent
secret produces; the two cases are deliberately not distinguished by
`cmd_renamekey`. -/
theorem rename_no_access (db : Db) (uid : ℤ) (s nm : String)
    (h : lookupSec db.secrets s = none ∨
         ∃ e, lookupSec db.secrets s = some e ∧ uid ∉ e.owners) :
    cmd_renamekey db uid [s, nm] = ("🚫 Нет доступа.", db) := by
  rcases h with hnone | ⟨e, he, hmem⟩
  · simp [cmd_renamekey, hnone]
  · simp [cmd_renamekey, he, hmem]

/-- Witness for C7 at a nonexistent secret in the empty registry. -/
theorem rename_no_access_witness :
    cmd_renamekey (Db.mk [] []) 2 ["k", "x"] = ("🚫 Нет доступа.", Db.mk [] []) :=
  rename_no_access (Db.mk [] []) 2 "k" "x" (Or.inl rfl)

/-- Counterexample for C8: two `create` calls whose random draws collide on
one secret: the second create resets the entry's owner set from [1] to [2],
so the owner set is not monotonically non-decreasing over all sequences. -/
theorem ownership_reset_on_collision_cex :
    lookupSec (runOps (Db.mk [] []) [RegOp.create 1 "c" [] (gen_secret pick0)]).secrets
      (gen_secret pick0) = some (Entry.mk [1] "PC" none []) ∧
    lookupSec (runOps (Db.mk [] []) opsC8).secrets (gen_secret pick0) =
      some (Entry.mk [2] "PC" none []) ∧
    ((1 : ℤ) ∈ [(2 : ℤ)] → False) := by
  refine ⟨by decide, by decide, by decide⟩

theorem all_nonempty_dictSet (l : List (String × Entry)) (k : String) (v : Entry)
    (hl : l.all (fun kv => !kv.2.owners.isEmpty) = true) (hv : v.owners ≠ []) :
    (dictSet l k v).all (fun kv => !kv.2.owners.isEmpty) = true := by
  rw [List.all_eq_true] at hl ⊢
  intro x hx
  unfold dictSet at hx
  by_cases hany : l.any (fun kv => kv.1 = k) = true
  · rw [if_pos hany] at hx
    obtain ⟨kv, hkv, rfl⟩ := List.mem_map.mp hx
    by_cases hk : kv.1 = k
    · simp only [if_pos hk]
      simpa using hv
    · simp only [if_neg hk]
      exact hl kv hkv
  · rw [if_neg hany] at hx
    rcases List.mem_append.mp hx with hx2 | hx2
    · exact hl x hx2
    · simp only [List.mem_singleton] at hx2
      subst hx2
      simpa using hv

theorem all_nonempty_dictModify (l : List (String × Entry)) (k : String) (f : Entry → Entry)
    (hl : l.all (fun kv => !kv.2.owners.isEmpty) = true)
    (hf : ∀ e, (f e).owners ≠ []) :
    (dictModify l k f).all (fun kv => !kv.2.owners.isEmpty) = true := by
  rw [List.all_eq_true] at hl ⊢
  intro x hx
  obtain ⟨kv, hkv, rfl⟩ := List.mem_map.mp hx
  by_cases hk : kv.1 = k
  · simp only [if_pos hk]
    simpa using hf kv.2
  · simp only [if_neg hk]
    exact hl kv hkv

theorem step_preserve (db : Db) (op : RegOp) (s : String) (uid : ℤ)
    (hop : opFresh db op = true) :
    (hasEntry db s = true → hasEntry (applyOp db op) s = true) ∧
    (ownsKey db s uid = true → ownsKey (applyOp db op) s uid = true) ∧
    (ownersAllNonempty db = true → ownersAllNonempty (applyOp db op) = true) := by
  cases op with
  | create uid0 chat args sec =>
    have hop2 : (lookupSec db.secrets sec).isNone = true := hop
    have hfresh : lookupSec db.secrets sec = none := by
      cases hl : lookupSec db.secrets sec with
      | none => rfl
      | some w => rw [hl] at hop2; simp at hop2
    refine ⟨?_, ?_, ?_⟩
    · intro h
      unfold hasEntry at h ⊢
      cases hl : lookupSec db.secrets s with
      | none => rw [hl] at h; simp at h
      | some e =>
        have hne : s ≠ sec := by
          intro hcc; rw [hcc, hfresh] at hl; cases hl
        simp only [applyOp, cmd_newkey]
        rw [lookupSec_dictSet_ne db.secrets sec s _ hne, hl]
        rfl
    · intro h
      unfold ownsKey at h ⊢
      cases hl : lookupSec db.secrets s with
      | none => rw [hl] at h; simp at h
      | some e =>
        rw [hl] at h
        have hne : s ≠ sec := by
          intro hcc; rw [hcc, hfresh] at hl; cases hl
        simp only [applyOp, cmd_newkey]
        rw [lookupSec_dictSet_ne db.secrets sec s _ hne, hl]
        exact h
    · intro h
      unfold ownersAllNonempty at h ⊢
      simp only [applyOp, cmd_newkey]
      exact all_nonempty_dictSet db.secrets sec _ h (by simp)
  | link uid0 chat args =>
    cases args with
    | nil => exact ⟨id, id, id⟩
    | cons secret rest =>
      cases hl : lookupSec db.secrets secret with
      | none => simp only [applyOp, cmd_linkkey, hl]; exact ⟨id, id, id⟩
      | some e0 =>
        by_cases hown : uid0 ∈ e0.owners
        · simp only [applyOp, cmd_linkkey, hl, if_pos hown]
          exact ⟨id, id, id⟩
        · simp only [applyOp, cmd_linkkey, hl, if_neg hown]
          refine ⟨?_, ?_, ?_⟩
          · intro h
            unfold hasEntry at h ⊢
            by_cases hs : s = secret
            · subst hs
              rw [lookupSec_dictModify_self, hl]
              rfl
            · rw [lookupSec_dictModify_ne db.secrets secret s _ hs]
              exact h
          · intro h
            unfold ownsKey at h ⊢
            by_cases hs : s = secret
            · subst hs
              rw [lookupSec_dictModify_self, hl]
              rw [hl] at h
              have h2 : decide (uid ∈ e0.owners) = true := h
              show decide (uid ∈ e0.owners ++ [uid0]) = true
              exact decide_eq_true (List.mem_append_left _ (of_decide_eq_true h2))
            · rw [lookupSec_dictModify_ne db.secrets secret s _ hs]
              exact h
          · intro h
            unfold ownersAllNonempty at h ⊢
            exact all_nonempty_dictModify db.secrets secret
              (fun e2 => Entry.mk (e2.owners ++ [uid0]) e2.nickname e2.status e2.pending)
              h (fun e2 => by simp)

/-- Claim C8 as amended: for every sequence of `create`/`link` calls in which
each `create`'s randomly drawn secret is fresh (not currently a registry key —
the collision-free behaviour; a colliding `create` instead resets the entry),
registry entries are never removed, each user keeps every key they own
(ownership only grows), and non-emptiness of all owner sets is preserved. -/
theorem ownership_invariant (ops : List RegOp) (db : Db) (s : String) (uid : ℤ)
    (hf : freshRun db ops = true) :
    (hasEntry db s = true → hasEntry (runOps db ops) s = true) ∧
    (ownsKey db s uid = true → ownsKey (runOps db ops) s uid = true) ∧
    (ownersAllNonempty db = true → ownersAllNonempty (runOps db ops) = true) := by
  induction ops generalizing db with
  | nil => exact ⟨id, id, id⟩
  | cons op rest ih =>
    simp only [freshRun, Bool.and_eq_true] at hf
    obtain ⟨hop, hrest⟩ := hf
    have hstep := step_preserve db op s uid hop
    have hih := ih (applyOp db op) hrest
    have hrun : runOps db (op :: rest) = runOps (applyOp db op) rest := rfl
    rw [hrun]
    exact ⟨fun h => hih.1 (hstep.1 h),
           fun h => hih.2.1 (hstep.2.1 h),
           fun h => hih.2.2 (hstep.2.2 h)⟩

/-- Witness for C8: linking user 2 onto entry "A" keeps the entry present,
keeps user 1 an owner, and keeps every owner set non-empty. -/
theorem ownership_invariant_witness :
    hasEntry (runOps exDb8 [RegOp.link 2 "c" ["A"]]) "A" = true ∧
    ownsKey (runOps exDb8 [RegOp.link 2 "c" ["A"]]) "A" 1 = true ∧
    ownersAllNonempty (runOps exDb8 [RegOp.link 2 "c" ["A"]]) = true := by
  have h := ownership_invariant [RegOp.link 2 "c" ["A"]] exDb8 "A" 1 (by decide)
  exact ⟨h.1 (by decide), h.2.1 (by decide), h.2.2 (by decide)⟩

/-- Counterexample for C9: in a bucket holding one sample with gpu = 50 and
one sample without a gpu reading, `group_30s` reports gpu = 25 = 50 / 2
(dividing by the whole bucket size), while the mean of the field across the
samples that carry it is 50. -/
theorem bucket_mixed_average_cex :
    group_30s rowsC9 = [Row.mk 0 15 15 (some 25) none] ∧
    specFieldMean (rowsC9.map Row.gpu) = some 50 ∧
    (25 : ℚ) ≠ 50 := by
  refine ⟨?_, ?_, by norm_num⟩
  · norm_num [group_30s, bucketKeys, bucketOf, aggBucket, bucketKey, rowsC9,
      List.insertionSort, List.orderedInsert, List.dedup, List.filter,
      List.filterMap_cons]
  · norm_num [specFieldMean, rowsC9, List.filterMap_cons]

theorem bucketKey_emod (t : ℤ) : bucketKey t % 30 = 0 := by
  unfold bucketKey
  omega

theorem bucketKey_of_emod (t : ℤ) (h : t % 30 = 0) : bucketKey t = t := by
  unfold bucketKey
  omega

theorem aggBucket_ts (k : ℤ) (vals : List Row) : (aggBucket k vals).ts = k := rfl

theorem aggBucket_gpu (k : ℤ) (vals : List Row) :
    (aggBucket k vals).gpu =
      if (vals.map Row.gpu).any Option.isSome then
        some (((vals.map Row.gpu).filterMap id).sum / (vals.length : ℚ)) else none := rfl

theorem aggBucket_vram (k : ℤ) (vals : List Row) :
    (aggBucket k vals).vram =
      if (vals.map Row.vram).any Option.isSome then
        some (((vals.map Row.vram).filterMap id).sum / (vals.length : ℚ)) else none := rfl

theorem bucketKeys_sorted (rows : List Row) : List.Sorted (· ≤ ·) (bucketKeys rows) :=
  List.sorted_insertionSort _ _

theorem bucketKeys_nodup (rows : List Row) : (bucketKeys rows).Nodup :=
  (List.perm_insertionSort _ _).nodup_iff.mpr (List.nodup_dedup _)

theorem mem_bucketKeys (rows : List Row) (k : ℤ) :
    k ∈ bucketKeys rows ↔ ∃ r ∈ rows, bucketKey r.ts = k := by
  unfold bucketKeys
  rw [List.mem_insertionSort, List.mem_dedup, List.mem_map]

theorem group_30s_ts_map (rows : List Row) : (group_30s rows).map Row.ts = bucketKeys rows := by
  unfold group_30s
  rw [List.map_map]
  exact List.map_id'' (fun k => rfl) _

theorem mem_group_30s_emod (rows : List Row) (r : Row) (hr : r ∈ group_30s rows) :
    r.ts % 30 = 0 := by
  obtain ⟨k, hk, rfl⟩ := List.mem_map.mp hr
  rw [aggBucket_ts]
  obtain ⟨r0, _, hk2⟩ := (mem_bucketKeys rows k).mp hk
  rw [← hk2]
  exact bucketKey_emod _

/-- Claim C9 as amended: every bucket produced by `group_30s` is keyed by an
aligned timestamp, is non-empty, carries the mean of `cpu` and `ram` over the
bucket's samples, reports an optional field absent from every sample as "no
value", and reports an optional field present in at least one sample as the
sum of the present values divided by the total number of samples in the
bucket — not the mean over only the samples carrying the field. -/
theorem bucket_average_semantics (rows : List Row) (b : Row) (hb : b ∈ group_30s rows) :
    bucketKey b.ts = b.ts ∧
    bucketOf rows b.ts ≠ [] ∧
    b.cpu = ((bucketOf rows b.ts).map Row.cpu).sum / ((bucketOf rows b.ts).length : ℚ) ∧
    b.ram = ((bucketOf rows b.ts).map Row.ram).sum / ((bucketOf rows b.ts).length : ℚ) ∧
    ((∀ r ∈ bucketOf rows b.ts, r.gpu = none) → b.gpu = none) ∧
    ((∃ r ∈ bucketOf rows b.ts, r.gpu.isSome = true) →
      b.gpu = some ((((bucketOf rows b.ts).map Row.gpu).filterMap id).sum /
                    ((bucketOf rows b.ts).length : ℚ))) ∧
    ((∀ r ∈ bucketOf rows b.ts, r.vram = none) → b.vram = none) ∧
    ((∃ r ∈ bucketOf rows b.ts, r.vram.isSome = true) →
      b.vram = some ((((bucketOf rows b.ts).map Row.vram).filterMap id).sum /
                     ((bucketOf rows b.ts).length : ℚ))) := by
  have hmod := mem_group_30s_emod rows b hb
  obtain ⟨k, hk, rfl⟩ := List.mem_map.mp hb
  simp only [aggBucket_ts] at hmod ⊢
  obtain ⟨r0, hr0, hk2⟩ := (mem_bucketKeys rows k).mp hk
  refine ⟨bucketKey_of_emod k hmod, ?_, rfl, rfl, ?_, ?_, ?_, ?_⟩
  · have : r0 ∈ bucketOf rows k := by
      unfold bucketOf
      rw [List.mem_filter]
      exact ⟨hr0, by simp [hk2]⟩
    exact List.ne_nil_of_mem this
  · intro hall
    rw [aggBucket_gpu, if_neg]
    intro hany
    rw [List.any_eq_true] at hany
    obtain ⟨x, hx, hxs⟩ := hany
    obtain ⟨r, hr, rfl⟩ := List.mem_map.mp hx
    rw [hall r hr] at hxs
    cases hxs
  · intro hsome
    rw [aggBucket_gpu, if_pos]
    rw [List.any_eq_true]
    obtain ⟨r, hr, hrs⟩ := hsome
    exact ⟨r.gpu, List.mem_map_of_mem Row.gpu hr, hrs⟩
  · intro hall
    rw [aggBucket_vram, if_neg]
    intro hany
    rw [List.any_eq_true] at hany
    obtain ⟨x, hx, hxs⟩ := hany
    obtain ⟨r, hr, rfl⟩ := List.mem_map.mp hx
    rw [hall r hr] at hxs
    cases hxs
  · intro hsome
    rw [aggBucket_vram, if_pos]
    rw [List.any_eq_true]
    obtain ⟨r, hr, hrs⟩ := hsome
    exact ⟨r.vram, List.mem_map_of_mem Row.vram hr, hrs⟩

/-- Witness for C9 on the concrete two-sample bucket. -/
theorem bucket_average_semantics_witness :
    bucketOf rowsC9 0 ≠ [] ∧
    (15 : ℚ) = ((bucketOf rowsC9 0).map Row.cpu).sum / ((bucketOf rowsC9 0).length : ℚ) := by
  have h := bucket_average_semantics rowsC9 (Row.mk 0 15 15 (some 25) none)
    (by norm_num [group_30s, bucketKeys, bucketOf, aggBucket, bucketKey, rowsC9,
        List.insertionSort, List.orderedInsert, List.dedup, List.filter,
        List.filterMap_cons])
  exact ⟨h.2.1, h.2.2.1⟩

theorem filter_eq_singleton_of_nodup (l : List ℤ) (k : ℤ) (hn : l.Nodup) (hk : k ∈ l) :
    l.filter (fun x => x = k) = [k] := by
  induction l with
  | nil => cases hk
  | cons a t ih =>
    rw [List.nodup_cons] at hn
    rcases List.mem_cons.mp hk with rfl | hk2
    · rw [List.filter_cons_of_pos (by simp)]
      have ht : t.filter (fun x => x = k) = [] := by
        rw [List.filter_eq_nil_iff]
        intro x hx
        simp only [decide_eq_true_eq]
        intro hcc
        exact hn.1 (hcc ▸ hx)
      rw [ht]
    · have hne : ¬(a = k) := fun hcc => hn.1 (hcc ▸ hk2)
      rw [List.filter_cons_of_neg (by simpa using hne)]
      exact ih hn.2 hk2

theorem aggBucket_singleton (k : ℤ) (b : Row) (h : b.ts = k) : aggBucket k [b] = b := by
  obtain ⟨ts, cpu, ram, gpu, vram⟩ := b
  simp only at h
  subst h
  unfold aggBucket
  cases gpu <;> cases vram <;> simp [List.filterMap_cons]

/-- Claim C10: bucketing is idempotent — re-running `group_30s` on its own
output yields exactly the same buckets. -/
theorem group_30s_idempotent (rows : List Row) :
    group_30s (group_30s rows) = group_30s rows := by
  have h1 : (group_30s rows).map (fun r => bucketKey r.ts) = bucketKeys rows := by
    have hcongr : ∀ r ∈ group_30s rows, bucketKey r.ts = Row.ts r :=
      fun r hr => bucketKey_of_emod _ (mem_group_30s_emod rows r hr)
    rw [List.map_congr_left hcongr, group_30s_ts_map]
  have hkeys : bucketKeys (group_30s rows) = bucketKeys rows := by
    show List.insertionSort (· ≤ ·) (((group_30s rows).map (fun r => bucketKey r.ts)).dedup) =
      bucketKeys rows
    rw [h1, List.dedup_eq_self.mpr (bucketKeys_nodup rows),
        List.Sorted.insertionSort_eq (bucketKeys_sorted rows)]
  show (bucketKeys (group_30s rows)).map
      (fun k => aggBucket k (bucketOf (group_30s rows) k)) = group_30s rows
  rw [hkeys]
  conv_rhs => rw [group_30s]
  apply List.map_congr_left
  intro k hk
  have hfilter : bucketOf (group_30s rows) k = [aggBucket k (bucketOf rows k)] := by
    unfold bucketOf
    have hstep1 : (group_30s rows).filter (fun r => decide (bucketKey r.ts = k)) =
        (group_30s rows).filter (fun r => decide (r.ts = k)) := by
      apply List.filter_congr
      intro r hr
      rw [bucketKey_of_emod _ (mem_group_30s_emod rows r hr)]
    rw [hstep1]
    show ((bucketKeys rows).map (fun k2 => aggBucket k2 (bucketOf rows k2))).filter
        (fun r => decide (r.ts = k)) = _
    rw [List.filter_map]
    have hcomp : ((fun r => decide (r.ts = k)) ∘ (fun k2 => aggBucket k2 (bucketOf rows k2))) =
        fun k2 => decide (k2 = k) := by
      funext k2
      simp [aggBucket_ts, Function.comp]
    rw [hcomp, filter_eq_singleton_of_nodup _ k (bucketKeys_nodup rows) hk,
        List.map_cons, List.map_nil]
    rfl
  rw [hfilter]
  exact aggBucket_singleton k _ rfl
